import Mathlib

/-!
Verification of the Game-of-Life grid engine (`src/lib.rs`).

The Rust source is shallowly embedded: `u32` arithmetic is modelled on `Nat`
with an explicit `% U32` wherever the source performs wrapping `u32`
operations (release-mode semantics), and every operation that can hit a
runtime bounds-check panic returns an `Option`.
-/

namespace GoL

/-- Modulus of Rust `u32` arithmetic. -/
def U32 : Nat := 4294967296

/-- Embeds `enum Cell { Dead = 0, Alive = 1 }`. -/
inductive Cell where
  | Dead : Cell
  | Alive : Cell
deriving Repr, DecidableEq

/-- Embeds the `as u8` view of a `Cell` (its `#[repr(u8)]` discriminant). -/
def Cell.toNat : Cell → Nat
  | Cell.Dead => 0
  | Cell.Alive => 1

/-- Embeds `Cell::toggle`. -/
def Cell.toggle : Cell → Cell
  | Cell.Alive => Cell.Dead
  | Cell.Dead => Cell.Alive

/-- Embeds `struct Universe { width: u32, height: u32, cells: Vec<Cell> }`. -/
structure Universe where
  width : Nat
  height : Nat
  cells : List Cell
deriving Repr, DecidableEq

/-- Well-formed grid states: the data-model invariant `cells.length ==
width * height` (spec section 3), together with the bound every live Rust
`Vec<Cell>` satisfies: an allocation holds at most `isize::MAX` bytes, which
on the 32-bit wasm target is `2^31 - 1`, and `Cell` is one byte. -/
def Universe.WF (u : Universe) : Prop :=
  u.cells.length = u.width * u.height ∧ u.width * u.height < 2 ^ 31

instance (u : Universe) : Decidable u.WF := by
  unfold Universe.WF; infer_instance

/-- Embeds `Universe::get_index`: `(row * self.width + column) as usize`,
where the multiplication and addition wrap at `2^32` (`u32` arithmetic;
the `as usize` cast from `u32` is lossless on wasm32). Folding the two
wraps into one `% U32` is exact because `(a % m + b) % m = (a + b) % m`. -/
def Universe.getIndex (u : Universe) (row column : Nat) : Nat :=
  (row * u.width + column) % U32

/-- Embeds one body iteration of the inner loop of
`Universe::live_neighbor_count` (offsets `delta_row`, `delta_col`, running
total `acc`): skip the `(0, 0)` offset, otherwise wrap the neighbor
coordinates, index into `cells` (a panic — out-of-bounds index — is `none`)
and add the cell's `u8` value. -/
def Universe.lncStep (u : Universe) (row col dr : Nat) (acc : Nat) (dc : Nat) :
    Option Nat :=
  if dr = 0 ∧ dc = 0 then
    some acc
  else
    let nr := ((row + dr) % U32) % u.height
    let nc := ((col + dc) % U32) % u.width
    match u.cells.get? (u.getIndex nr nc) with
    | some c => some (acc + c.toNat)
    | none => none

/-- Embeds `Universe::live_neighbor_count`: fold over
`[self.height - 1, 0, 1]` × `[self.width - 1, 0, 1]`.  A grid with
`height = 0` or `width = 0` makes `% self.height` / `% self.width` a
remainder by zero, which panics in Rust (and `height - 1` additionally
overflows in a debug build), hence `none`. -/
def Universe.liveNeighborCount (u : Universe) (row col : Nat) : Option Nat :=
  if u.height = 0 ∨ u.width = 0 then none
  else
    [u.height - 1, 0, 1].foldlM
      (fun acc dr => [u.width - 1, 0, 1].foldlM (u.lncStep row col dr) acc) 0

/-- Embeds the `match (cell, live_neighbor_count)` arms in `Universe::tick`. -/
def nextCell (cell : Cell) (n : Nat) : Cell :=
  match cell with
  | Cell.Alive =>
      if n < 2 then Cell.Dead
      else if n = 2 ∨ n = 3 then Cell.Alive
      else if n > 3 then Cell.Dead
      else Cell.Alive
  | Cell.Dead => if n = 3 then Cell.Alive else Cell.Dead

/-- Embeds one body iteration of the inner loop of `Universe::tick`:
read `self.cells[idx]` (panic is `none`), compute the live-neighbor count
from the pre-tick state `u`, and write the next state into the `next`
buffer.  The write `next[idx] = next_cell` is in bounds whenever the read
succeeded, since `next` is a clone of `cells`. -/
def Universe.tickCell (u : Universe) (next : List Cell) (row col : Nat) :
    Option (List Cell) :=
  let idx := u.getIndex row col
  match u.cells.get? idx with
  | none => none
  | some cell =>
    match u.liveNeighborCount row col with
    | none => none
    | some n => some (next.set idx (nextCell cell n))

/-- Embeds `Universe::tick`: start from `next = self.cells.clone()`, loop
over `row in 0..height`, `col in 0..width` filling `next` from the
pre-tick state, then replace `cells` by `next`. -/
def Universe.tick (u : Universe) : Option Universe :=
  match (List.range u.height).foldlM
      (fun acc row =>
        (List.range u.width).foldlM (fun acc2 col => u.tickCell acc2 row col) acc)
      u.cells with
  | none => none
  | some next => some { u with cells := next }

/-- Embeds `Universe::new`: a 64×64 grid seeded Alive at linear indices
divisible by 2 or by 7. -/
def newUniverse : Universe :=
  { width := 64
    height := 64
    cells :=
      (List.range (64 * 64)).map fun i =>
        if i % 2 = 0 ∨ i % 7 = 0 then Cell.Alive else Cell.Dead }

/-- Embeds `Universe::set_width`: store the new width and rebuild `cells`
as `(0..width * self.height)` Dead cells.  The range bound is the wrapping
`u32` product; collecting that many one-byte cells into a `Vec<Cell>`
panics deterministically with a capacity overflow when the requested
length exceeds `isize::MAX` bytes (`2^31 - 1` on wasm32), hence `none`
for wrapped products of `2^31` or more. -/
def Universe.setWidth (u : Universe) (w : Nat) : Option Universe :=
  if w * u.height % U32 < 2 ^ 31 then
    some { u with
           width := w
           cells := List.replicate (w * u.height % U32) Cell.Dead }
  else none

/-- Embeds `Universe::set_height`: store the new height and rebuild
`cells` as `(0..height * self.width)` Dead cells (wrapping `u32`
product), with the same capacity-overflow panic as `set_width` when the
wrapped length reaches `2^31`. -/
def Universe.setHeight (u : Universe) (h : Nat) : Option Universe :=
  if h * u.width % U32 < 2 ^ 31 then
    some { u with
           height := h
           cells := List.replicate (h * u.width % U32) Cell.Dead }
  else none

/-- Embeds `Universe::toggle_cell`: index `cells` at
`get_index(row, col)` (panic is `none`) and toggle that cell. -/
def Universe.toggleCell (u : Universe) (row col : Nat) : Option Universe :=
  let idx := u.getIndex row col
  match u.cells.get? idx with
  | none => none
  | some c => some { u with cells := u.cells.set idx c.toggle }

/-- Embeds one iteration of `Universe::set_cells`: the indexed assignment
`self.cells[idx] = Cell::Alive` panics when `idx` is out of bounds. -/
def Universe.setCellsStep (u : Universe) (acc : List Cell) (p : Nat × Nat) :
    Option (List Cell) :=
  let idx := u.getIndex p.1 p.2
  if idx < acc.length then some (acc.set idx Cell.Alive) else none

/-- Embeds `Universe::set_cells`: set each referenced cell to Alive, in
order. -/
def Universe.setCells (u : Universe) (ps : List (Nat × Nat)) : Option Universe :=
  match ps.foldlM u.setCellsStep u.cells with
  | none => none
  | some cs => some { u with cells := cs }

/-- Embeds the `*const Cell` view returned by `Universe::cells`: the byte
buffer an external reader sees, one `u8` per cell (`#[repr(u8)]`). -/
def Universe.cellsView (u : Universe) : List Nat :=
  u.cells.map Cell.toNat

/-- Embeds `slice::chunks`: consecutive chunks of `w` elements, the last
possibly shorter.  Rust's `chunks` panics when `w = 0`; that case is
modelled at the call site (`render`), and this function returns `[]` there
so that it is total. -/
def chunksOf (w : Nat) (l : List Cell) : List (List Cell) :=
  if h : l = [] ∨ w = 0 then []
  else l.take w :: chunksOf w (l.drop w)
termination_by l.length
decreasing_by
  simp only [not_or] at h
  have hl : 0 < l.length := List.length_pos.mpr h.1
  have hw : 0 < w := Nat.pos_of_ne_zero h.2
  simp only [List.length_drop]
  omega

/-- Embeds the row loop body of `impl fmt::Display for Universe`: one
glyph per cell, `'◻'` for Dead and `'◼'` for Alive, then `"\n"`. -/
def renderRow (l : List Cell) : String :=
  String.join (l.map fun c => if c = Cell.Dead then "◻" else "◼") ++ "\n"

/-- Embeds `Universe::render` / the `Display` impl: chunk `cells` into rows
of `width` and print each.  `chunks(0)` panics in Rust, hence `none` for a
zero-width grid. -/
def Universe.render (u : Universe) : Option String :=
  if u.width = 0 then none
  else some (String.join ((chunksOf u.width u.cells).map renderRow))

/-! Spec-side definitions, written from the specification's words, to be
compared with the embedded code. -/

/-- The cell of the data model at `(row, col)`: linear index
`row * width + col` (spec section 3, row-major, zero-based). -/
def Universe.cellAt (u : Universe) (r c : Nat) : Cell :=
  u.cells.getD (r * u.width + c) Cell.Dead

/-- One summand of the spec's neighbor count for offset pair `(dr, dc)`:
the `(0, 0)` offset is excluded, any other offset contributes the
Alive-ness of the cell at `((row + dr) mod height, (col + dc) mod width)`. -/
def specTerm (u : Universe) (row col dr dc : Nat) : Nat :=
  if dr = 0 ∧ dc = 0 then 0
  else (u.cellAt ((row + dr) % u.height) ((col + dc) % u.width)).toNat

/-- The spec's live-neighbor count: sum over row offsets
`{height-1, 0, 1}` and column offsets `{width-1, 0, 1}`, excluding the
`(0, 0)` offset (spec section 4.1, Neighbor counting). -/
def specNeighborCount (u : Universe) (row col : Nat) : Nat :=
  ([u.height - 1, 0, 1].map fun dr =>
    ([u.width - 1, 0, 1].map fun dc => specTerm u row col dr dc).sum).sum

/-- The spec's per-cell transition table (spec section 4.1): Alive with
`n < 2` dies, Alive with `n ∈ {2,3}` survives, Alive with `n > 3` dies,
Dead with `n = 3` is born, anything else is unchanged. -/
def specRule (cell : Cell) (n : Nat) : Cell :=
  match cell with
  | Cell.Alive => if 2 ≤ n ∧ n ≤ 3 then Cell.Alive else Cell.Dead
  | Cell.Dead => if n = 3 then Cell.Alive else Cell.Dead

/-- The 5×5 test grid of the repository's own test-suite: Alive exactly at
linear indices 6, 11, 16, i.e. at `(1,1)`, `(2,1)`, `(3,1)`. -/
def testUniverse : Universe :=
  { width := 5
    height := 5
    cells :=
      (List.range 25).map fun i =>
        if i = 6 ∨ i = 11 ∨ i = 16 then Cell.Alive else Cell.Dead }

/-! Basic facts about the embedded definitions. -/

theorem Cell.toNat_le_one (c : Cell) : c.toNat ≤ 1 := by
  cases c <;> simp [Cell.toNat]

theorem specTerm_le_one (u : Universe) (row col dr dc : Nat) :
    specTerm u row col dr dc ≤ 1 := by
  unfold specTerm
  split
  · exact Nat.zero_le 1
  · exact Cell.toNat_le_one _

theorem specTerm_center (u : Universe) (row col : Nat) :
    specTerm u row col 0 0 = 0 := by
  simp [specTerm]

theorem specNeighborCount_le_eight (u : Universe) (row col : Nat) :
    specNeighborCount u row col ≤ 8 := by
  have h1 := specTerm_le_one u row col (u.height - 1) (u.width - 1)
  have h2 := specTerm_le_one u row col (u.height - 1) 0
  have h3 := specTerm_le_one u row col (u.height - 1) 1
  have h4 := specTerm_le_one u row col 0 (u.width - 1)
  have h5 := specTerm_center u row col
  have h6 := specTerm_le_one u row col 0 1
  have h7 := specTerm_le_one u row col 1 (u.width - 1)
  have h8 := specTerm_le_one u row col 1 0
  have h9 := specTerm_le_one u row col 1 1
  simp only [specNeighborCount, List.map_cons, List.map_nil, List.sum_cons,
    List.sum_nil]
  omega

/-- The height of a well-formed nonempty grid is below `2^31`, so `u32`
additions of two row coordinates cannot wrap. -/
theorem Universe.height_lt (u : Universe) (hWF : u.WF) (hw : 1 ≤ u.width) :
    u.height < 2 ^ 31 := by
  rcases hWF with ⟨-, hb⟩
  calc u.height ≤ u.width * u.height := Nat.le_mul_of_pos_left _ hw
  _ < 2 ^ 31 := hb

theorem Universe.width_lt (u : Universe) (hWF : u.WF) (hh : 1 ≤ u.height) :
    u.width < 2 ^ 31 := by
  rcases hWF with ⟨-, hb⟩
  calc u.width ≤ u.width * u.height := Nat.le_mul_of_pos_right _ hh
  _ < 2 ^ 31 := hb

/-- Under the data-model invariant, for in-range coordinates the wrapped
linear index computed by `get_index` is the exact row-major index, and it
is in bounds. -/
theorem Universe.getIndex_eq (u : Universe) (hWF : u.WF) (r c : Nat)
    (hr : r < u.height) (hc : c < u.width) :
    u.getIndex r c = r * u.width + c ∧ r * u.width + c < u.cells.length := by
  rcases hWF with ⟨hlen, hb⟩
  have hlt : r * u.width + c < u.width * u.height := by
    have h1 : r * u.width + c < (r + 1) * u.width := by
      simp [Nat.add_mul]; omega
    have h2 : (r + 1) * u.width ≤ u.height * u.width := by
      exact Nat.mul_le_mul_right _ hr
    have h3 : u.height * u.width = u.width * u.height := Nat.mul_comm _ _
    omega
  constructor
  · have : r * u.width + c < U32 := by
      have : (2 : Nat) ^ 31 < U32 := by norm_num [U32]
      omega
    exact Nat.mod_eq_of_lt this
  · omega

/-- Evaluation of one inner-loop iteration of `live_neighbor_count`: under
the data-model invariant, for in-range `(row, col)` and offsets bounded by
the dimensions, no `u32` wrap occurs, the indexing succeeds, and the step
adds exactly the spec's summand. -/
theorem Universe.lncStep_eq (u : Universe) (hWF : u.WF)
    (row col dr dc : Nat) (hr : row < u.height) (hc : col < u.width)
    (hdr : dr ≤ u.height) (hdc : dc ≤ u.width) (acc : Nat) :
    u.lncStep row col dr acc dc = some (acc + specTerm u row col dr dc) := by
  by_cases hz : dr = 0 ∧ dc = 0
  · simp [Universe.lncStep, hz, specTerm]
  · have hh : 0 < u.height := by omega
    have hw0 : 0 < u.width := by omega
    have hhlt := u.height_lt hWF (by omega)
    have hwlt := u.width_lt hWF (by omega)
    have hU : U32 = 4294967296 := rfl
    have hrw : (row + dr) % U32 = row + dr := Nat.mod_eq_of_lt (by omega)
    have hcw : (col + dc) % U32 = col + dc := Nat.mod_eq_of_lt (by omega)
    have hnr : (row + dr) % u.height < u.height := Nat.mod_lt _ hh
    have hnc : (col + dc) % u.width < u.width := Nat.mod_lt _ hw0
    obtain ⟨hidx, hlt⟩ := u.getIndex_eq hWF _ _ hnr hnc
    have hget : u.cells.get?
        (u.getIndex ((row + dr) % u.height) ((col + dc) % u.width))
        = some (u.cellAt ((row + dr) % u.height) ((col + dc) % u.width)) := by
      rw [hidx, List.get?_eq_get hlt]
      simp [Universe.cellAt, List.getD_eq_getElem?_getD, List.getElem?_eq_getElem hlt]
    simp only [Universe.lncStep, if_neg hz, hrw, hcw, hget, specTerm]

/-- Under the data-model invariant, `live_neighbor_count` returns exactly
the spec's neighbor sum for every in-range cell. -/
theorem Universe.liveNeighborCount_eq (u : Universe) (hWF : u.WF)
    (row col : Nat) (hr : row < u.height) (hc : col < u.width) :
    u.liveNeighborCount row col = some (specNeighborCount u row col) := by
  have hh : 0 < u.height := by omega
  have hw : 0 < u.width := by omega
  have e : ∀ acc dr dc, dr ≤ u.height → dc ≤ u.width →
      u.lncStep row col dr acc dc = some (acc + specTerm u row col dr dc) :=
    fun acc dr dc h1 h2 => u.lncStep_eq hWF row col dr dc hr hc h1 h2 acc
  unfold Universe.liveNeighborCount
  rw [if_neg (by omega)]
  simp only [List.foldlM_cons, List.foldlM_nil]
  rw [e 0 (u.height - 1) (u.width - 1) (by omega) (by omega)]
  simp only [Option.bind_eq_bind, Option.some_bind]
  rw [e _ (u.height - 1) 0 (by omega) (by omega)]
  simp only [Option.bind_eq_bind, Option.some_bind]
  rw [e _ (u.height - 1) 1 (by omega) (by omega)]
  simp only [Option.bind_eq_bind, Option.some_bind, Option.pure_def]
  rw [e _ 0 (u.width - 1) (by omega) (by omega)]
  simp only [Option.bind_eq_bind, Option.some_bind]
  rw [e _ 0 0 (by omega) (by omega)]
  simp only [Option.bind_eq_bind, Option.some_bind]
  rw [e _ 0 1 (by omega) (by omega)]
  simp only [Option.bind_eq_bind, Option.some_bind, Option.pure_def]
  rw [e _ 1 (u.width - 1) (by omega) (by omega)]
  simp only [Option.bind_eq_bind, Option.some_bind]
  rw [e _ 1 0 (by omega) (by omega)]
  simp only [Option.bind_eq_bind, Option.some_bind]
  rw [e _ 1 1 (by omega) (by omega)]
  simp only [Option.bind_eq_bind, Option.some_bind, Option.pure_def,
    Option.some.injEq, specNeighborCount, List.map_cons, List.map_nil,
    List.sum_cons, List.sum_nil]
  omega

/-- C2: for every well-formed grid with `width ≥ 1` and `height ≥ 1` and
every cell with `row < height` and `col < width`, `live_neighbor_count`
does not panic (it returns a value) and that value equals the spec's count
over row offsets `{height-1, 0, 1}` mod `height` and column offsets
`{width-1, 0, 1}` mod `width`, excluding the `(0, 0)` offset, and lies in
`[0, 8]`; degenerate width-1 or height-1 grids included. -/
theorem liveNeighborCount_correct (u : Universe) (hWF : u.WF)
    (hh : 1 ≤ u.height) (hw : 1 ≤ u.width) (row col : Nat)
    (hr : row < u.height) (hc : col < u.width) :
    u.liveNeighborCount row col = some (specNeighborCount u row col) ∧
    specNeighborCount u row col ≤ 8 :=
  ⟨u.liveNeighborCount_eq hWF row col hr hc, specNeighborCount_le_eight u row col⟩

/-- Witness for C2 at the repository's own 5×5 test grid, cell `(2, 0)`. -/
theorem liveNeighborCount_correct_witness :
    testUniverse.liveNeighborCount 2 0 = some (specNeighborCount testUniverse 2 0) ∧
    specNeighborCount testUniverse 2 0 ≤ 8 :=
  liveNeighborCount_correct testUniverse (by decide) (by decide) (by decide)
    2 0 (by decide) (by decide)

/-- The `match` arms of `tick` implement exactly the spec's transition
table. -/
theorem nextCell_eq_specRule (c : Cell) (n : Nat) :
    nextCell c n = specRule c n := by
  cases c <;> simp only [nextCell, specRule] <;> split_ifs <;>
    first
    | rfl
    | omega

/-- Reading `cells` at an in-bounds row-major index yields the data-model
cell. -/
theorem Universe.get?_cellAt (u : Universe) (r c : Nat)
    (h : r * u.width + c < u.cells.length) :
    u.cells.get? (r * u.width + c) = some (u.cellAt r c) := by
  rw [List.get?_eq_get h]
  simp [Universe.cellAt, List.getD_eq_getElem?_getD, List.getElem?_eq_getElem h]

/-- Evaluation of the inner (column) loop of `tick` over the first `k`
columns of row `row`: it succeeds, writes the rule's next state at every
processed position, computed from the pre-tick state `u`, and leaves all
other positions of the buffer untouched. -/
theorem Universe.tickRow (u : Universe) (hWF : u.WF) (row : Nat)
    (hrow : row < u.height) :
    ∀ k, k ≤ u.width → ∀ acc : List Cell, acc.length = u.cells.length →
    ∃ acc2, (List.range k).foldlM (fun a col => u.tickCell a row col) acc
        = some acc2 ∧
      acc2.length = u.cells.length ∧
      (∀ c, c < k → acc2.get? (row * u.width + c)
          = some (nextCell (u.cellAt row c) (specNeighborCount u row c))) ∧
      (∀ j, (∀ c, c < k → j ≠ row * u.width + c) → acc2.get? j = acc.get? j) := by
  intro k
  induction k with
  | zero =>
    intro _ acc hacc
    exact ⟨acc, by simp [List.foldlM_nil], hacc, fun c hc => absurd hc (by omega),
      fun j _ => rfl⟩
  | succ k ih =>
    intro hk acc hacc
    obtain ⟨acc2, hfold, hlen2, hval2, hframe2⟩ := ih (by omega) acc hacc
    obtain ⟨hidx, hbound⟩ := u.getIndex_eq hWF row k hrow (by omega)
    have hb2 : row * u.width + k < acc2.length := by omega
    have hstep : u.tickCell acc2 row k
        = some (acc2.set (row * u.width + k)
            (nextCell (u.cellAt row k) (specNeighborCount u row k))) := by
      simp only [Universe.tickCell]
      rw [hidx, u.get?_cellAt row k hbound,
        u.liveNeighborCount_eq hWF row k hrow (by omega)]
    refine ⟨acc2.set (row * u.width + k)
        (nextCell (u.cellAt row k) (specNeighborCount u row k)), ?_, ?_, ?_, ?_⟩
    · rw [List.range_succ, List.foldlM_append, hfold]
      simp only [Option.bind_eq_bind, Option.some_bind, List.foldlM_cons,
        List.foldlM_nil, hstep, Option.pure_def]
    · rw [List.length_set]; exact hlen2
    · intro c hc
      by_cases hck : c = k
      · subst hck
        exact List.get?_set_eq_of_lt _ hb2
      · rw [List.get?_set_ne _ _ (by omega)]
        exact hval2 c (by omega)
    · intro j hj
      rw [List.get?_set_ne _ _ (Ne.symm (hj k (by omega)))]
      exact hframe2 j fun c hc => hj c (by omega)

/-- Evaluation of the outer (row) loop of `tick` over the first `m` rows. -/
theorem Universe.tickAll (u : Universe) (hWF : u.WF) :
    ∀ m, m ≤ u.height → ∀ acc : List Cell, acc.length = u.cells.length →
    ∃ acc2, (List.range m).foldlM
        (fun a row =>
          (List.range u.width).foldlM (fun a2 col => u.tickCell a2 row col) a)
        acc = some acc2 ∧
      acc2.length = u.cells.length ∧
      (∀ r c, r < m → c < u.width → acc2.get? (r * u.width + c)
          = some (nextCell (u.cellAt r c) (specNeighborCount u r c))) ∧
      (∀ j, (∀ r c, r < m → c < u.width → j ≠ r * u.width + c) →
        acc2.get? j = acc.get? j) := by
  intro m
  induction m with
  | zero =>
    intro _ acc hacc
    exact ⟨acc, by simp [List.foldlM_nil], hacc,
      fun r c hr => absurd hr (by omega), fun j _ => rfl⟩
  | succ m ih =>
    intro hm acc hacc
    obtain ⟨acc2, hfold, hlen2, hval2, hframe2⟩ := ih (by omega) acc hacc
    obtain ⟨acc3, hfold3, hlen3, hval3, hframe3⟩ :=
      u.tickRow hWF m (by omega) u.width (by omega) acc2 hlen2
    refine ⟨acc3, ?_, hlen3, ?_, ?_⟩
    · rw [List.range_succ, List.foldlM_append, hfold]
      simp only [Option.bind_eq_bind, Option.some_bind, List.foldlM_cons,
        List.foldlM_nil, Option.pure_def]
      rw [hfold3]
      rfl
    · intro r c hr hc
      by_cases hrm : r = m
      · subst hrm; exact hval3 c hc
      · have hlt : r * u.width + c < m * u.width := by
          have h1 : r * u.width + c < (r + 1) * u.width := by
            simp [Nat.add_mul]; omega
          have h2 : (r + 1) * u.width ≤ m * u.width :=
            Nat.mul_le_mul_right _ (by omega)
          omega
        rw [hframe3 _ fun c2 hc2 => by
          have : m * u.width ≤ m * u.width + c2 := by omega
          omega]
        exact hval2 r c (by omega) hc
    · intro j hj
      rw [hframe3 _ fun c hc => hj m c (by omega) hc]
      exact hframe2 j fun r c hr hc => hj r c (by omega) hc

/-- C1: for every well-formed grid state, `tick` succeeds and replaces the
generation with one in which the state of every cell `(r, c)` is the
spec's transition table applied to that cell's pre-tick state and its
pre-tick live-neighbor count — no post-tick neighbor is ever consulted,
since the right-hand side depends only on the pre-tick grid `u`. -/
theorem tick_correct (u : Universe) (hWF : u.WF) :
    ∃ u2, u.tick = some u2 ∧ u2.width = u.width ∧ u2.height = u.height ∧
      u2.cells.length = u.cells.length ∧
      ∀ r c, r < u.height → c < u.width →
        u2.cells.get? (r * u.width + c)
          = some (specRule (u.cellAt r c) (specNeighborCount u r c)) := by
  obtain ⟨next, hfold, hlen, hval, -⟩ :=
    u.tickAll hWF u.height (by omega) u.cells rfl
  refine ⟨{ u with cells := next }, ?_, rfl, rfl, hlen, ?_⟩
  · unfold Universe.tick
    rw [hfold]
  · intro r c hr hc
    rw [hval r c hr hc, nextCell_eq_specRule]

/-- Witness for C1 at the repository's own 5×5 test grid. -/
theorem tick_correct_witness :
    ∃ u2, testUniverse.tick = some u2 ∧ u2.width = testUniverse.width ∧
      u2.height = testUniverse.height ∧
      u2.cells.length = testUniverse.cells.length ∧
      ∀ r c, r < testUniverse.height → c < testUniverse.width →
        u2.cells.get? (r * testUniverse.width + c)
          = some (specRule (testUniverse.cellAt r c)
              (specNeighborCount testUniverse r c)) :=
  tick_correct testUniverse (by decide)

theorem Cell.toggle_toggle (c : Cell) : c.toggle.toggle = c := by
  cases c <;> rfl

/-- Writing back the value already stored at an in-bounds index is a no-op. -/
theorem set_getD_self (l : List Cell) (i : Nat) (h : i < l.length) :
    l.set i (l.getD i Cell.Dead) = l := by
  apply List.ext_getElem?_iff.mpr
  intro j
  by_cases hj : i = j
  · subst hj
    rw [List.getElem?_set_eq h, List.getD_eq_getElem l _ h,
      List.getElem?_eq_getElem h]
  · rw [List.getElem?_set_ne hj]

/-- Distinct in-range coordinate pairs have distinct row-major linear
indices. -/
theorem index_ne (w r c r2 c2 : Nat) (hc : c < w) (hc2 : c2 < w)
    (hne : ¬(r = r2 ∧ c = c2)) : r * w + c ≠ r2 * w + c2 := by
  intro heq
  rcases Nat.lt_trichotomy r r2 with h | h | h
  · have h1 : r * w + c < (r + 1) * w := by simp [Nat.add_mul]; omega
    have h2 : (r + 1) * w ≤ r2 * w := Nat.mul_le_mul_right _ h
    omega
  · subst h
    have : c = c2 := by omega
    exact hne ⟨rfl, this⟩
  · have h1 : r2 * w + c2 < (r2 + 1) * w := by simp [Nat.add_mul]; omega
    have h2 : (r2 + 1) * w ≤ r * w := Nat.mul_le_mul_right _ h
    omega

/-- C10: whenever `tick` completes, the `width` and `height` fields are
unchanged; only the `cells` buffer is replaced. -/
theorem tick_preserves_dims (u u2 : Universe) (h : u.tick = some u2) :
    u2.width = u.width ∧ u2.height = u.height := by
  unfold Universe.tick at h
  split at h
  · exact Option.noConfusion h
  · rw [Option.some.injEq] at h
    subst h
    exact ⟨rfl, rfl⟩

/-- Witness for C10: one concrete completed tick on a 1×1 grid. -/
theorem tick_preserves_dims_witness :
    (Universe.mk 1 1 [Cell.Dead]).tick = some (Universe.mk 1 1 [Cell.Dead]) ∧
    ((Universe.mk 1 1 [Cell.Dead]).width = (Universe.mk 1 1 [Cell.Dead]).width ∧
      (Universe.mk 1 1 [Cell.Dead]).height = (Universe.mk 1 1 [Cell.Dead]).height) :=
  ⟨by decide, tick_preserves_dims _ _ (by decide)⟩

/-- Evaluation of `toggle_cell` at an in-range coordinate pair. -/
theorem Universe.toggleCell_eq (u : Universe) (hWF : u.WF) (row col : Nat)
    (hr : row < u.height) (hc : col < u.width) :
    u.toggleCell row col
      = some { u with
               cells := u.cells.set (row * u.width + col)
                 ((u.cellAt row col).toggle) } := by
  obtain ⟨hidx, hlt⟩ := u.getIndex_eq hWF row col hr hc
  simp only [Universe.toggleCell]
  rw [hidx, u.get?_cellAt row col hlt]

/-- C7: toggling an in-range cell flips exactly that cell, leaves every
other cell and both dimensions unchanged, and toggling the same cell a
second time restores the original grid state. -/
theorem toggleCell_correct (u : Universe) (hWF : u.WF) (row col : Nat)
    (hr : row < u.height) (hc : col < u.width) :
    ∃ u2, u.toggleCell row col = some u2 ∧ u2.width = u.width ∧
      u2.height = u.height ∧
      u2.cellAt row col = (u.cellAt row col).toggle ∧
      (∀ r c, r < u.height → c < u.width → ¬(r = row ∧ c = col) →
        u2.cellAt r c = u.cellAt r c) ∧
      u2.toggleCell row col = some u := by
  obtain ⟨hidx, hlt⟩ := u.getIndex_eq hWF row col hr hc
  refine ⟨{ u with
            cells := u.cells.set (row * u.width + col)
              ((u.cellAt row col).toggle) },
    u.toggleCell_eq hWF row col hr hc, rfl, rfl, ?_, ?_, ?_⟩
  · simp only [Universe.cellAt, List.getD_eq_getElem?_getD,
      List.getElem?_set_eq hlt, Option.getD_some]
  · intro r c hr2 hc2 hne
    have hne2 : row * u.width + col ≠ r * u.width + c :=
      index_ne u.width row col r c hc hc2 fun hand => hne ⟨hand.1.symm, hand.2.symm⟩
    simp only [Universe.cellAt, List.getD_eq_getElem?_getD,
      List.getElem?_set_ne hne2]
  · have hget2 : (u.cells.set (row * u.width + col)
        ((u.cellAt row col).toggle)).get? (row * u.width + col)
        = some ((u.cellAt row col).toggle) := by
      rw [List.get?_eq_getElem?]
      exact List.getElem?_set_eq hlt
    simp only [Universe.toggleCell, Universe.getIndex]
    rw [show (row * u.width + col) % U32 = row * u.width + col from hidx, hget2]
    simp only [List.set_set, Cell.toggle_toggle]
    have hca : u.cellAt row col = u.cells.getD (row * u.width + col) Cell.Dead := rfl
    rw [hca, set_getD_self u.cells _ hlt]

/-- Witness for C7 at the repository's own 5×5 test grid, cell `(1, 1)`. -/
theorem toggleCell_correct_witness :
    ∃ u2, testUniverse.toggleCell 1 1 = some u2 ∧
      u2.width = testUniverse.width ∧ u2.height = testUniverse.height ∧
      u2.cellAt 1 1 = (testUniverse.cellAt 1 1).toggle ∧
      (∀ r c, r < testUniverse.height → c < testUniverse.width →
        ¬(r = 1 ∧ c = 1) → u2.cellAt r c = testUniverse.cellAt r c) ∧
      u2.toggleCell 1 1 = some testUniverse :=
  toggleCell_correct testUniverse (by decide) 1 1 (by decide) (by decide)

/-- Out-of-range coordinates are not rejected by `toggle_cell` when their
wrapped linear index happens to land inside the array: on the 5×5 test
grid, `toggle_cell(0, 7)` succeeds and silently turns cell `(1, 2)`
(linear index 7) Alive. -/
theorem toggleCell_oor_silent_write :
    testUniverse.width ≤ 7 ∧
    testUniverse.toggleCell 0 7 ≠ none ∧
    ((testUniverse.toggleCell 0 7).map fun u2 => u2.cellAt 1 2)
      = some Cell.Alive ∧
    testUniverse.cellAt 1 2 = Cell.Dead := by decide

/-- C3 (amended): an access at out-of-range `(row, col)` is rejected with
the bounds-checked failure exactly when the wrapped linear index
`get_index(row, col)` falls outside the `cells` array; otherwise the
accessor silently operates on the in-bounds cell at that linear index.
In either case it never touches memory outside the `cells` array: a
successful call rewrites the array only via `List.set` at that index. -/
theorem outOfRange_access (u : Universe) (row col : Nat)
    (hoor : u.height ≤ row ∨ u.width ≤ col) :
    (u.toggleCell row col = none ↔ u.cells.length ≤ u.getIndex row col) ∧
    (∀ u2, u.toggleCell row col = some u2 → u2.width = u.width ∧
      u2.height = u.height ∧
      u2.cells = u.cells.set (u.getIndex row col)
        ((u.cells.getD (u.getIndex row col) Cell.Dead).toggle)) ∧
    (u.setCells [(row, col)] = none ↔ u.cells.length ≤ u.getIndex row col) ∧
    (∀ u2, u.setCells [(row, col)] = some u2 → u2.width = u.width ∧
      u2.height = u.height ∧
      u2.cells = u.cells.set (u.getIndex row col) Cell.Alive) := by
  by_cases hlt : u.getIndex row col < u.cells.length
  · have hget : u.cells.get? (u.getIndex row col)
        = some (u.cells.getD (u.getIndex row col) Cell.Dead) := by
      rw [List.get?_eq_get hlt]
      simp [List.getD_eq_getElem?_getD, List.getElem?_eq_getElem hlt]
    refine ⟨?_, ?_, ?_, ?_⟩
    · simp only [Universe.toggleCell, hget]
      constructor
      · intro hfalse
        exact Option.noConfusion hfalse
      · intro hfalse
        omega
    · intro u2 h2
      simp only [Universe.toggleCell, hget, Option.some.injEq] at h2
      subst h2
      exact ⟨rfl, rfl, rfl⟩
    · simp only [Universe.setCells, List.foldlM_cons, List.foldlM_nil,
        Universe.setCellsStep, if_pos hlt, Option.bind_eq_bind,
        Option.some_bind, Option.pure_def]
      constructor
      · intro hfalse
        exact Option.noConfusion hfalse
      · intro hfalse
        omega
    · intro u2 h2
      simp only [Universe.setCells, List.foldlM_cons, List.foldlM_nil,
        Universe.setCellsStep, if_pos hlt, Option.bind_eq_bind,
        Option.some_bind, Option.pure_def, Option.some.injEq] at h2
      subst h2
      exact ⟨rfl, rfl, rfl⟩
  · have hget : u.cells.get? (u.getIndex row col) = none :=
      List.get?_eq_none.mpr (by omega)
    refine ⟨?_, ?_, ?_, ?_⟩
    · simp only [Universe.toggleCell, hget]
      exact iff_of_true trivial (by omega)
    · intro u2 h2
      simp only [Universe.toggleCell, hget] at h2
      exact Option.noConfusion h2
    · simp only [Universe.setCells, List.foldlM_cons, List.foldlM_nil,
        Universe.setCellsStep, if_neg hlt, Option.bind_eq_bind,
        Option.none_bind]
      exact iff_of_true trivial (by omega)
    · intro u2 h2
      simp only [Universe.setCells, List.foldlM_cons, List.foldlM_nil,
        Universe.setCellsStep, if_neg hlt, Option.bind_eq_bind,
        Option.none_bind] at h2
      exact Option.noConfusion h2

/-- Witness for C3 (amended) at the 5×5 test grid with the out-of-range
pair `(0, 7)`. -/
theorem outOfRange_access_witness :
    (testUniverse.toggleCell 0 7 = none ↔
      testUniverse.cells.length ≤ testUniverse.getIndex 0 7) ∧
    (∀ u2, testUniverse.toggleCell 0 7 = some u2 →
      u2.width = testUniverse.width ∧ u2.height = testUniverse.height ∧
      u2.cells = testUniverse.cells.set (testUniverse.getIndex 0 7)
        ((testUniverse.cells.getD (testUniverse.getIndex 0 7) Cell.Dead).toggle)) ∧
    (testUniverse.setCells [(0, 7)] = none ↔
      testUniverse.cells.length ≤ testUniverse.getIndex 0 7) ∧
    (∀ u2, testUniverse.setCells [(0, 7)] = some u2 →
      u2.width = testUniverse.width ∧ u2.height = testUniverse.height ∧
      u2.cells = testUniverse.cells.set (testUniverse.getIndex 0 7) Cell.Alive) :=
  outOfRange_access testUniverse 0 7 (by decide)

/-- The packed-bit decoding claimed by the spec for the exported buffer:
bit `i % 8` of byte `i / 8`. -/
def bitAt (view : List Nat) (i : Nat) : Nat :=
  view.getD (i / 8) 0 / 2 ^ (i % 8) % 2

/-- A 1×2 grid with both cells Alive. -/
def pairUniverse : Universe :=
  { width := 2, height := 1, cells := [Cell.Alive, Cell.Alive] }

/-- The exported buffer is not bit-packed: on a 2-cell all-Alive grid,
cell 1 is Alive but bit 1 of word 0 of the view is 0 — the code stores
one full byte per cell, so the packed-bit decoding misreads it. -/
theorem cellsView_not_bit_packed :
    pairUniverse.WF ∧
    pairUniverse.cells.getD 1 Cell.Dead = Cell.Alive ∧
    bitAt pairUniverse.cellsView 1 = 0 := by decide

/-- C4 (amended): the view exported by `cells()` is one byte per cell:
entry `i` of the view is the `u8` value of cell `i`, `1` meaning Alive
and `0` meaning Dead, so an external reader decodes byte `i` (not bit
`i`) as the state of the cell at linear index `i`. -/
theorem cellsView_byte_per_cell (u : Universe) (i : Nat) (c : Cell)
    (h : u.cells.get? i = some c) :
    u.cellsView.get? i = some c.toNat ∧
    (c.toNat = 1 ↔ c = Cell.Alive) ∧ (c.toNat = 0 ↔ c = Cell.Dead) := by
  rw [List.get?_eq_getElem?] at h
  refine ⟨?_, ?_, ?_⟩
  · rw [Universe.cellsView, List.get?_eq_getElem?, List.getElem?_map, h]
    rfl
  · cases c <;> simp [Cell.toNat]
  · cases c <;> simp [Cell.toNat]

/-- Witness for C4 (amended) at the 1×2 all-Alive grid, cell 1. -/
theorem cellsView_byte_per_cell_witness :
    pairUniverse.cellsView.get? 1 = some Cell.Alive.toNat ∧
    (Cell.Alive.toNat = 1 ↔ Cell.Alive = Cell.Alive) ∧
    (Cell.Alive.toNat = 0 ↔ Cell.Alive = Cell.Dead) :=
  cellsView_byte_per_cell pairUniverse 1 Cell.Alive (by decide)

/-- Growing a well-formed 3-wide grid to height `2^31` requests
`(2^31 * 3) mod 2^32 = 2^31` cells, which exceeds `isize::MAX` bytes on
wasm32: the `Vec` allocation panics with a capacity overflow, so no grid
of the new dimensions is ever yielded. -/
theorem setHeight_capacity_overflow_panics :
    (Universe.mk 3 5 (List.replicate 15 Cell.Dead)).WF ∧
    (Universe.mk 3 5 (List.replicate 15 Cell.Dead)).setHeight 2147483648
      = none := by
  constructor
  · decide
  · simp only [Universe.setHeight]
    rw [if_neg (by norm_num [U32])]

/-- C6 (amended): `set_width(w)` (resp. `set_height(h)`) completes
exactly when the wrapped `u32` product `(w * height) mod 2^32` (resp.
`(h * width) mod 2^32`) is below `2^31` — otherwise the `Vec` allocation
panics with a capacity overflow on wasm32 — and a completed call yields a
grid of width `w` (height `h`) with the other dimension unchanged, every
cell Dead regardless of prior state, and a cells array of length equal to
that wrapped product, which is the claimed `width * height` product
exactly when the `u32` product does not overflow; repeating the same
completed call leaves the state identical. -/
theorem resize_correct (u : Universe) (w h : Nat) (hw : w < U32)
    (hh : h < U32) :
    (u.setWidth w = none ↔ 2 ^ 31 ≤ w * u.height % U32) ∧
    (∀ u2, u.setWidth w = some u2 → u2.width = w ∧ u2.height = u.height ∧
      u2.cells.length = w * u.height % U32 ∧
      (w * u.height < U32 → u2.cells.length = w * u.height) ∧
      (∀ c ∈ u2.cells, c = Cell.Dead) ∧
      u2.setWidth w = some u2) ∧
    (u.setHeight h = none ↔ 2 ^ 31 ≤ h * u.width % U32) ∧
    (∀ u2, u.setHeight h = some u2 → u2.height = h ∧ u2.width = u.width ∧
      u2.cells.length = h * u.width % U32 ∧
      (h * u.width < U32 → u2.cells.length = h * u.width) ∧
      (∀ c ∈ u2.cells, c = Cell.Dead) ∧
      u2.setHeight h = some u2) := by
  refine ⟨?_, ?_, ?_, ?_⟩
  · simp only [Universe.setWidth]
    split
    · constructor
      · intro hfalse
        exact Option.noConfusion hfalse
      · intro hge
        omega
    · exact iff_of_true rfl (by omega)
  · intro u2 h2
    simp only [Universe.setWidth] at h2
    split at h2
    · rw [Option.some.injEq] at h2
      subst h2
      refine ⟨rfl, rfl, List.length_replicate .., ?_, ?_, ?_⟩
      · intro hlt
        simp [Nat.mod_eq_of_lt hlt]
      · intro c hc
        exact List.eq_of_mem_replicate hc
      · simp only [Universe.setWidth]
        rw [if_pos (by omega)]
    · exact Option.noConfusion h2
  · simp only [Universe.setHeight]
    split
    · constructor
      · intro hfalse
        exact Option.noConfusion hfalse
      · intro hge
        omega
    · exact iff_of_true rfl (by omega)
  · intro u2 h2
    simp only [Universe.setHeight] at h2
    split at h2
    · rw [Option.some.injEq] at h2
      subst h2
      refine ⟨rfl, rfl, List.length_replicate .., ?_, ?_, ?_⟩
      · intro hlt
        simp [Nat.mod_eq_of_lt hlt]
      · intro c hc
        exact List.eq_of_mem_replicate hc
      · simp only [Universe.setHeight]
        rw [if_pos (by omega)]
    · exact Option.noConfusion h2

/-- Witness for C6 (amended) on a concrete 4×3 grid with `w = 2`,
`h = 5`: both resizes complete and both `some` branches apply. -/
theorem resize_correct_witness :
    ((Universe.mk 4 3 (List.replicate 12 Cell.Dead)).setWidth 2 = none ↔
      2 ^ 31 ≤ 2 * (Universe.mk 4 3 (List.replicate 12 Cell.Dead)).height % U32) ∧
    (∀ u2, (Universe.mk 4 3 (List.replicate 12 Cell.Dead)).setWidth 2 = some u2 →
      u2.width = 2 ∧
      u2.height = (Universe.mk 4 3 (List.replicate 12 Cell.Dead)).height ∧
      u2.cells.length
        = 2 * (Universe.mk 4 3 (List.replicate 12 Cell.Dead)).height % U32 ∧
      (2 * (Universe.mk 4 3 (List.replicate 12 Cell.Dead)).height < U32 →
        u2.cells.length
          = 2 * (Universe.mk 4 3 (List.replicate 12 Cell.Dead)).height) ∧
      (∀ c ∈ u2.cells, c = Cell.Dead) ∧
      u2.setWidth 2 = some u2) ∧
    ((Universe.mk 4 3 (List.replicate 12 Cell.Dead)).setHeight 5 = none ↔
      2 ^ 31 ≤ 5 * (Universe.mk 4 3 (List.replicate 12 Cell.Dead)).width % U32) ∧
    (∀ u2, (Universe.mk 4 3 (List.replicate 12 Cell.Dead)).setHeight 5 = some u2 →
      u2.height = 5 ∧
      u2.width = (Universe.mk 4 3 (List.replicate 12 Cell.Dead)).width ∧
      u2.cells.length
        = 5 * (Universe.mk 4 3 (List.replicate 12 Cell.Dead)).width % U32 ∧
      (5 * (Universe.mk 4 3 (List.replicate 12 Cell.Dead)).width < U32 →
        u2.cells.length
          = 5 * (Universe.mk 4 3 (List.replicate 12 Cell.Dead)).width) ∧
      (∀ c ∈ u2.cells, c = Cell.Dead) ∧
      u2.setHeight 5 = some u2) :=
  resize_correct (Universe.mk 4 3 (List.replicate 12 Cell.Dead)) 2 5
    (by norm_num [U32]) (by norm_num [U32])

/-- Evaluation of the `set_cells` fold over a list of in-range pairs:
it succeeds, every referenced position ends Alive, and every position not
referenced keeps its value from the starting buffer. -/
theorem Universe.setCellsAux (u : Universe) (hWF : u.WF) :
    ∀ ps : List (Nat × Nat), (∀ p ∈ ps, p.1 < u.height ∧ p.2 < u.width) →
    ∀ acc : List Cell, acc.length = u.cells.length →
    ∃ acc2, ps.foldlM u.setCellsStep acc = some acc2 ∧
      acc2.length = u.cells.length ∧
      (∀ p ∈ ps, acc2.get? (p.1 * u.width + p.2) = some Cell.Alive) ∧
      (∀ j, (∀ p ∈ ps, j ≠ p.1 * u.width + p.2) → acc2.get? j = acc.get? j) := by
  intro ps
  induction ps with
  | nil =>
    intro _ acc hacc
    exact ⟨acc, by simp [List.foldlM_nil], hacc, by simp, fun j _ => rfl⟩
  | cons p ps ih =>
    intro hps acc hacc
    obtain ⟨hp1, hp2⟩ := hps p (by simp)
    obtain ⟨hidx, hlt⟩ := u.getIndex_eq hWF p.1 p.2 hp1 hp2
    have hstep : u.setCellsStep acc p
        = some (acc.set (p.1 * u.width + p.2) Cell.Alive) := by
      simp only [Universe.setCellsStep]
      rw [hidx, if_pos (by omega)]
    obtain ⟨acc2, hfold, hlen2, hval2, hframe2⟩ :=
      ih (fun q hq => hps q (by simp [hq]))
        (acc.set (p.1 * u.width + p.2) Cell.Alive) (by simpa using hacc)
    refine ⟨acc2, ?_, hlen2, ?_, ?_⟩
    · rw [List.foldlM_cons, hstep]
      simpa [Option.bind_eq_bind, Option.some_bind] using hfold
    · intro q hq
      rcases List.mem_cons.mp hq with hq | hq
      · subst hq
        by_cases hmem : ∀ r ∈ ps, q.1 * u.width + q.2 ≠ r.1 * u.width + r.2
        · rw [hframe2 _ hmem, List.get?_eq_getElem?,
            List.getElem?_set_eq (by omega)]
        · push_neg at hmem
          obtain ⟨r, hr, hre⟩ := hmem
          rw [hre]
          exact hval2 r hr
      · exact hval2 q hq
    · intro j hj
      rw [hframe2 j fun r hr => hj r (by simp [hr])]
      rw [List.get?_eq_getElem?, List.get?_eq_getElem?,
        List.getElem?_set_ne (Ne.symm (hj p (by simp)))]

/-- C8: for every well-formed grid and every sequence of in-range pairs,
`set_cells` succeeds, sets exactly the referenced cells to Alive, and
leaves every unreferenced cell and both dimensions unchanged. -/
theorem setCells_correct (u : Universe) (hWF : u.WF)
    (ps : List (Nat × Nat)) (hps : ∀ p ∈ ps, p.1 < u.height ∧ p.2 < u.width) :
    ∃ u2, u.setCells ps = some u2 ∧ u2.width = u.width ∧
      u2.height = u.height ∧
      (∀ p ∈ ps, u2.cellAt p.1 p.2 = Cell.Alive) ∧
      (∀ r c, r < u.height → c < u.width → (r, c) ∉ ps →
        u2.cellAt r c = u.cellAt r c) := by
  obtain ⟨acc2, hfold, hlen2, hval2, hframe2⟩ :=
    u.setCellsAux hWF ps hps u.cells rfl
  refine ⟨{ u with cells := acc2 }, ?_, rfl, rfl, ?_, ?_⟩
  · simp only [Universe.setCells, hfold]
  · intro p hp
    obtain ⟨hp1, hp2⟩ := hps p hp
    obtain ⟨-, hlt⟩ := u.getIndex_eq hWF p.1 p.2 hp1 hp2
    have := hval2 p hp
    simp only [Universe.cellAt, List.getD_eq_getElem?_getD,
      ← List.get?_eq_getElem?, this, Option.getD_some]
  · intro r c hr hc hnm
    have hne : ∀ p ∈ ps, r * u.width + c ≠ p.1 * u.width + p.2 := by
      intro p hp
      obtain ⟨hp1, hp2⟩ := hps p hp
      refine index_ne u.width r c p.1 p.2 hc hp2 ?_
      intro hand
      apply hnm
      have : (r, c) = p := Prod.ext hand.1 hand.2
      rw [this]
      exact hp
    have := hframe2 _ hne
    simp only [Universe.cellAt, List.getD_eq_getElem?_getD,
      ← List.get?_eq_getElem?, this]

/-- Witness for C8: a 3×3 all-Dead grid with pairs `[(0,1), (1,2)]`. -/
theorem setCells_correct_witness :
    ∃ u2, (Universe.mk 3 3 (List.replicate 9 Cell.Dead)).setCells
        [(0, 1), (1, 2)] = some u2 ∧
      u2.width = (Universe.mk 3 3 (List.replicate 9 Cell.Dead)).width ∧
      u2.height = (Universe.mk 3 3 (List.replicate 9 Cell.Dead)).height ∧
      (∀ p ∈ [((0 : Nat), (1 : Nat)), (1, 2)], u2.cellAt p.1 p.2 = Cell.Alive) ∧
      (∀ r c, r < (Universe.mk 3 3 (List.replicate 9 Cell.Dead)).height →
        c < (Universe.mk 3 3 (List.replicate 9 Cell.Dead)).width →
        (r, c) ∉ [((0 : Nat), (1 : Nat)), (1, 2)] →
        u2.cellAt r c = (Universe.mk 3 3 (List.replicate 9 Cell.Dead)).cellAt r c) :=
  setCells_correct (Universe.mk 3 3 (List.replicate 9 Cell.Dead)) (by decide)
    [(0, 1), (1, 2)] (by decide)

/-- An `Option`-valued fold whose step preserves the buffer length
preserves the buffer length. -/
theorem foldlM_some_length {α : Type} (f : List Cell → α → Option (List Cell))
    (hf : ∀ acc a acc2, f acc a = some acc2 → acc2.length = acc.length) :
    ∀ (l : List α) (acc acc2 : List Cell),
      l.foldlM f acc = some acc2 → acc2.length = acc.length := by
  intro l
  induction l with
  | nil =>
    intro acc acc2 h
    simp only [List.foldlM_nil, Option.pure_def, Option.some.injEq] at h
    rw [← h]
  | cons a l ih =>
    intro acc acc2 h
    rw [List.foldlM_cons] at h
    cases hf1 : f acc a with
    | none => rw [hf1] at h; exact Option.noConfusion h
    | some acc1 =>
      rw [hf1] at h
      simp only [Option.bind_eq_bind, Option.some_bind] at h
      rw [ih acc1 acc2 h, hf acc a acc1 hf1]

theorem Universe.tickCell_some_length (u : Universe) (acc : List Cell)
    (row col : Nat) (acc2 : List Cell) (h : u.tickCell acc row col = some acc2) :
    acc2.length = acc.length := by
  simp only [Universe.tickCell] at h
  split at h
  · exact Option.noConfusion h
  · split at h
    · exact Option.noConfusion h
    · rw [Option.some.injEq] at h
      rw [← h]
      simp

/-- A completed `tick` keeps the dimensions and the cells-array length. -/
theorem Universe.tick_some_spec (u u2 : Universe) (h : u.tick = some u2) :
    u2.width = u.width ∧ u2.height = u.height ∧
    u2.cells.length = u.cells.length := by
  unfold Universe.tick at h
  split at h
  · exact Option.noConfusion h
  next next0 heq =>
    rw [Option.some.injEq] at h
    subst h
    refine ⟨rfl, rfl, ?_⟩
    exact foldlM_some_length _
      (fun acc row acc2 h2 => foldlM_some_length _
        (fun a col a2 h3 => u.tickCell_some_length a row col a2 h3)
        (List.range u.width) acc acc2 h2)
      (List.range u.height) u.cells next0 heq

/-- A completed `toggle_cell` keeps the dimensions and the cells-array
length. -/
theorem Universe.toggleCell_some_spec (u : Universe) (r c : Nat)
    (u2 : Universe) (h : u.toggleCell r c = some u2) :
    u2.width = u.width ∧ u2.height = u.height ∧
    u2.cells.length = u.cells.length := by
  simp only [Universe.toggleCell] at h
  split at h
  · exact Option.noConfusion h
  · rw [Option.some.injEq] at h
    subst h
    exact ⟨rfl, rfl, by simp⟩

/-- A completed `set_cells` keeps the dimensions and the cells-array
length. -/
theorem Universe.setCells_some_spec (u : Universe) (ps : List (Nat × Nat))
    (u2 : Universe) (h : u.setCells ps = some u2) :
    u2.width = u.width ∧ u2.height = u.height ∧
    u2.cells.length = u.cells.length := by
  unfold Universe.setCells at h
  split at h
  · exact Option.noConfusion h
  next cs heq =>
    rw [Option.some.injEq] at h
    subst h
    refine ⟨rfl, rfl, ?_⟩
    refine foldlM_some_length u.setCellsStep ?_ ps u.cells cs heq
    intro acc p acc2 h2
    simp only [Universe.setCellsStep] at h2
    split at h2
    · rw [Option.some.injEq] at h2
      rw [← h2]
      simp
    · exact Option.noConfusion h2

/-- Grid states reachable from `Universe::new` by the public mutating
operations; the `u32` bounds on the arguments reflect their Rust types. -/
inductive Reachable : Universe → Prop where
  | init : Reachable newUniverse
  | stepTick (u u2 : Universe) : Reachable u → u.tick = some u2 → Reachable u2
  | stepSetWidth (u : Universe) (w : Nat) (u2 : Universe) : w < U32 →
      Reachable u → u.setWidth w = some u2 → Reachable u2
  | stepSetHeight (u : Universe) (h : Nat) (u2 : Universe) : h < U32 →
      Reachable u → u.setHeight h = some u2 → Reachable u2
  | stepToggle (u : Universe) (r c : Nat) (u2 : Universe) : r < U32 →
      c < U32 → Reachable u → u.toggleCell r c = some u2 → Reachable u2
  | stepSetCells (u : Universe) (ps : List (Nat × Nat)) (u2 : Universe) :
      (∀ p ∈ ps, p.1 < U32 ∧ p.2 < U32) → Reachable u →
      u.setCells ps = some u2 → Reachable u2

/-- The length invariant fails on a reachable state: from the 64×64
start grid, `set_width(2^26)` makes the `u32` product `2^26 * 64 = 2^32`
wrap to 0, leaving an empty cells array under a 67108864×64 header. -/
theorem reachable_breaks_length_inv :
    Reachable (Universe.mk 67108864 64 []) ∧
    (Universe.mk 67108864 64 []).cells.length
      ≠ (Universe.mk 67108864 64 []).width
        * (Universe.mk 67108864 64 []).height := by
  constructor
  · refine Reachable.stepSetWidth newUniverse 67108864 _ (by norm_num [U32])
      Reachable.init ?_
    decide
  · decide

/-- C5 (amended): every state reachable from construction through `tick`,
`set_width`, `set_height`, `toggle_cell` and `set_cells` satisfies
`cells.length = (width * height) mod 2^32`; the claimed unreduced equality
`cells.length = width * height` therefore holds exactly as long as no
resize call makes the `u32` product `width * height` overflow. -/
theorem reachable_length_inv (u : Universe) (h : Reachable u) :
    u.cells.length = u.width * u.height % U32 := by
  induction h with
  | init =>
    simp only [newUniverse, List.length_map, List.length_range]
    norm_num [U32]
  | stepTick u u2 hr hsome ih =>
    obtain ⟨hw2, hh2, hlen⟩ := u.tick_some_spec u2 hsome
    rw [hlen, hw2, hh2, ih]
  | stepSetWidth u w u2 hw hr hsome ih =>
    simp only [Universe.setWidth] at hsome
    split at hsome
    · rw [Option.some.injEq] at hsome
      subst hsome
      simp only [List.length_replicate]
    · exact Option.noConfusion hsome
  | stepSetHeight u h u2 hh hr hsome ih =>
    simp only [Universe.setHeight] at hsome
    split at hsome
    · rw [Option.some.injEq] at hsome
      subst hsome
      simp only [List.length_replicate]
      rw [Nat.mul_comm]
    · exact Option.noConfusion hsome
  | stepToggle u r c u2 hrb hcb hr hsome ih =>
    obtain ⟨hw2, hh2, hlen⟩ := u.toggleCell_some_spec r c u2 hsome
    rw [hlen, hw2, hh2, ih]
  | stepSetCells u ps u2 hps hr hsome ih =>
    obtain ⟨hw2, hh2, hlen⟩ := u.setCells_some_spec ps u2 hsome
    rw [hlen, hw2, hh2, ih]

/-- Witness for C5 (amended) at the construction state itself. -/
theorem reachable_length_inv_witness :
    newUniverse.cells.length = newUniverse.width * newUniverse.height % U32 :=
  reachable_length_inv newUniverse Reachable.init

theorem take_eq_map_getD (l : List Cell) (w : Nat) (h : w ≤ l.length) :
    l.take w = (List.range w).map fun c => l.getD c Cell.Dead := by
  apply List.ext_getElem?_iff.mpr
  intro i
  rw [List.getElem?_take, List.getElem?_map]
  by_cases hi : i < w
  · rw [if_pos hi, List.getElem?_range hi,
      List.getElem?_eq_getElem (show i < l.length from by omega)]
    exact congrArg some
      (List.getD_eq_getElem l Cell.Dead (show i < l.length from by omega)).symm
  · rw [if_neg hi, List.getElem?_eq_none (by simpa using by omega)]
    rfl

theorem drop_getD (l : List Cell) (a i : Nat) (d : Cell) :
    (l.drop a).getD i d = l.getD (a + i) d := by
  simp [List.getD_eq_getElem?_getD, List.getElem?_drop]

/-- A buffer of exactly `w * h` cells chunks into the `h` row slices of
the row-major layout. -/
theorem chunksOf_eq_rows (w : Nat) (hw : 0 < w) :
    ∀ (h : Nat) (l : List Cell), l.length = w * h →
      chunksOf w l = (List.range h).map fun r =>
        (List.range w).map fun c => l.getD (r * w + c) Cell.Dead := by
  intro h
  induction h with
  | zero =>
    intro l hl
    have h0 : l = [] := List.length_eq_zero.mp (by omega)
    subst h0
    rw [chunksOf]
    simp
  | succ h ih =>
    intro l hl
    have hmul : w * (h + 1) = w * h + w := by ring
    have hne : l ≠ [] := by
      intro h0
      rw [h0] at hl
      simp at hl
      omega
    rw [chunksOf, dif_neg (by push_neg; exact ⟨hne, by omega⟩)]
    have hdlen : (l.drop w).length = w * h := by
      rw [List.length_drop]; omega
    rw [ih (l.drop w) hdlen, List.range_succ_eq_map, List.map_cons,
      List.map_map]
    congr 1
    · rw [take_eq_map_getD l w (by omega)]
      apply List.map_congr_left
      intro c hc
      simp
    · apply List.map_congr_left
      intro r hr
      apply List.map_congr_left
      intro c hc
      rw [drop_getD]
      congr 1
      have hsm : Nat.succ r * w = r * w + w := Nat.succ_mul r w
      omega

/-- The spec's rendering: `height` newline-terminated rows, row `r`
listing the glyphs of cells `(r, 0) .. (r, width-1)` left to right, `◻`
for Dead and `◼` for Alive. -/
def specRender (u : Universe) : String :=
  String.join ((List.range u.height).map fun r =>
    String.join ((List.range u.width).map fun c =>
      if u.cellAt r c = Cell.Dead then "◻" else "◼") ++ "\n")

/-- Rendering a zero-width grid does not produce a string at all: the
`chunks(0)` call panics, although a width-0 grid is a well-formed state
of the data model (and reachable via `set_width(0)`). -/
theorem render_zero_width_panics :
    (Universe.mk 0 3 []).WF ∧ (Universe.mk 0 3 []).render = none := by decide

/-- C9 (amended): for every well-formed grid with `width ≥ 1` (a width-0
grid makes the rendering panic instead), the textual rendering is exactly
`height` newline-terminated rows of the two fixed glyphs in row-major
top-to-bottom, left-to-right order, matching the cell states at call
time. -/
theorem render_correct (u : Universe) (hWF : u.WF) (hw : 1 ≤ u.width) :
    u.render = some (specRender u) := by
  unfold Universe.render
  rw [if_neg (by omega)]
  rw [chunksOf_eq_rows u.width (by omega) u.height u.cells hWF.1,
    List.map_map]
  unfold specRender
  congr 1
  congr 1
  apply List.map_congr_left
  intro r hr
  simp only [Function.comp, renderRow, List.map_map]
  rfl

/-- Witness for C9 (amended) at the repository's own 5×5 test grid. -/
theorem render_correct_witness :
    testUniverse.render = some (specRender testUniverse) :=
  render_correct testUniverse (by decide) (by decide)

end GoL
